import Mathlib

/-!
Verification of the candidate-narrowing engine in `main.py`.

The development shallowly embeds the three core components of the program:

* `clean_text` — the text normalizer (regex substitution pass followed by
  boundary trimming), `main.py` lines 30-33;
* `extract_symptoms_from_infobox` — the two-tier symptom extractor,
  `main.py` lines 35-64 (the BeautifulSoup document traversal, lines 37-46,
  is abstracted as an optional value cell holding the list-item texts and
  the full cell text);
* the narrowing loop of `main`, lines 98-191: checklist computation,
  termination checks, token interpretation, seeding and filtering.

Strings are modelled as Lean `String`s (lists of characters); the regex
`\[.*?\]|\(.*?see.*?\)` with `re.IGNORECASE` is embedded by a direct
implementation of the lazy leftmost-match semantics of `re.sub` for this
particular pattern (`.` never matches a newline; alternatives are tried in
order; `.*?` expands lazily; matches are non-overlapping, scanned left to
right, and removed in a single pass).
-/

/-! ## Text normalizer (`clean_text`, `main.py` lines 30-33) -/

/-- Does the character list start with the literal `see`, case-insensitively
(the regex is compiled with `re.IGNORECASE`)? -/
def isSeeAt : List Char → Bool
  | s :: e1 :: e2 :: _ => s.toLower == 's' && e1.toLower == 'e' && e2.toLower == 'e'
  | _ => false

/-- Lazy scan for the closing character `close`: `.*?x` consumes characters
up to the first occurrence of `x`, never crossing a newline (`.` does not
match `\n`).  Returns the suffix after the closing character. -/
def scanClose (close : Char) : List Char → Option (List Char)
  | [] => none
  | c :: cs =>
    if c = close then some cs
    else if c = '\n' then none
    else scanClose close cs

/-- Lazy matching of `.*?see.*?\)` (the tail of the second regex
alternative) against a suffix: expand the first `.*?` lazily; at each
position try the literal `see` (case-insensitive) followed by a lazy scan
for `)`; on failure keep expanding, never across a newline.  Returns the
suffix after the closing parenthesis of the match. -/
def scanSee : List Char → Option (List Char)
  | [] => none
  | c :: cs =>
    if isSeeAt (c :: cs) then
      match scanClose ')' (cs.drop 2) with
      | some r => some r
      | none => scanSee cs
    else if c = '\n' then none
    else scanSee cs

/-- Try to match the pattern `\[.*?\]|\(.*?see.*?\)` at the head of the
list (alternatives in order, as the regex engine does).  Returns the suffix
after the match when one exists. -/
def matchAt : List Char → Option (List Char)
  | [] => none
  | c :: cs =>
    if c = '[' then scanClose ']' cs
    else if c = '(' then scanSee cs
    else none

/-- One pass of `re.sub(pattern, "", txt)`: scan left to right; at each
position remove the (lazy, leftmost) match if there is one and continue
after it, otherwise keep the character.  `fuel` bounds the recursion and is
instantiated with the length of the list, which suffices because every
match consumes at least one character. -/
def subPassGo : Nat → List Char → List Char
  | _, [] => []
  | 0, l => l
  | fuel + 1, c :: cs =>
    match matchAt (c :: cs) with
    | some r => subPassGo fuel r
    | none => c :: subPassGo fuel cs

/-- The substitution pass of `clean_text` (`main.py` line 32). -/
def subPass (l : List Char) : List Char :=
  subPassGo l.length l

/-- Membership in the strip character set of `clean_text` (`main.py`
line 33): space, period, newline, tab, semicolon. -/
def isStripChar (c : Char) : Bool :=
  c == ' ' || c == '.' || c == '\n' || c == '\t' || c == ';'

/-- Python `str.strip(" .\n\t;")`: drop the strip characters from both
ends of the list. -/
def stripEnds (l : List Char) : List Char :=
  ((l.dropWhile isStripChar).reverse.dropWhile isStripChar).reverse

/-- `clean_text` (`main.py` lines 30-33): one substitution pass removing
bracketed citations and "see" parentheticals, then boundary trimming. -/
def clean_text (s : String) : String :=
  ⟨stripEnds (subPass s.data)⟩

/-! ## Symptom extractor (`extract_symptoms_from_infobox`, `main.py` lines 35-64)

The BeautifulSoup traversal (lines 37-46) locates the `td` cell that is the
sibling of the `Symptoms` header; it is abstracted as an optional
`ValueCell` carrying the data the extractor reads from the cell: the texts
of its `li` elements (in document order, via `li.get_text()`) and the full
cell text with `;` separators (via `td.get_text(separator=";")`).  A
missing infobox, header row or value cell is `none` (lines 39-46 return
the empty list in those cases). -/

/-- The data `extract_symptoms_from_infobox` reads from the located value
cell of the infobox. -/
structure ValueCell where
  liTexts : List String
  fullText : String
deriving DecidableEq

/-- Python `str.lower()` restricted to ASCII: lower-case every character. -/
def pyLower (s : String) : String :=
  ⟨s.data.map Char.toLower⟩

/-- The length guard `3 <= len(t) <= 60` of lines 51 and 59. -/
def lenOK (t : String) : Bool :=
  decide (3 ≤ t.length) && decide (t.length ≤ 60)

/-- Does the pattern (first argument) occur at the start of the text
(second argument)? -/
def beginsWith : List Char → List Char → Bool
  | [], _ => true
  | _ :: _, [] => false
  | p :: ps, c :: cs => p == c && beginsWith ps cs

/-- The boilerplate guard of line 60:
`re.match(r"^(some cases|recurring|latent)", t, re.IGNORECASE)`.
An anchored case-insensitive match succeeds exactly when the lower-cased
text begins with one of the three literals. -/
def isBoiler (t : String) : Bool :=
  beginsWith "some cases".data (t.data.map Char.toLower) ||
  beginsWith "recurring".data (t.data.map Char.toLower) ||
  beginsWith "latent".data (t.data.map Char.toLower)

/-- `re.split(r"[;,]", raw)` (line 56): split at every semicolon or comma,
keeping empty parts. -/
def splitParts (raw : String) : List String :=
  (List.splitOnP (fun c => c == ';' || c == ',') raw.data).map (fun l => (⟨l⟩ : String))

/-- Tier 1 (lines 49-52): for each list item, clean its text, keep it when
the length guard holds, and lower-case it. -/
def tier1 (cell : ValueCell) : List String :=
  ((cell.liTexts.map clean_text).filter lenOK).map pyLower

/-- Tier 2 (lines 54-62): split the full cell text at semicolons and
commas, clean each part, keep it when the length guard holds and the
boilerplate guard does not fire, and lower-case it. -/
def tier2 (cell : ValueCell) : List String :=
  (((splitParts cell.fullText).map clean_text).filter
    (fun t => lenOK t && !isBoiler t)).map pyLower

/-- `list(dict.fromkeys(items))` (line 64): deduplicate keeping the first
occurrence of each element, in order.  `seen` accumulates the elements
already emitted. -/
def dedupFirstGo {α : Type} [DecidableEq α] (seen : List α) : List α → List α
  | [] => []
  | a :: l => if a ∈ seen then dedupFirstGo seen l else a :: dedupFirstGo (a :: seen) l

/-- First-occurrence deduplication (line 64). -/
def dedupFirst {α : Type} [DecidableEq α] (l : List α) : List α :=
  dedupFirstGo [] l

/-- `extract_symptoms_from_infobox` (lines 35-64) from the located value
cell: tier 1, then tier 2 when tier 1 produced fewer than 4 items, then
first-occurrence deduplication. -/
def extract_symptoms_from_infobox (cell : Option ValueCell) : List String :=
  match cell with
  | none => []
  | some cell =>
    let items := tier1 cell
    let items := if items.length < 4 then items ++ tier2 cell else items
    dedupFirst items

/-- Does the citation/parenthetical pattern match anywhere in the string? -/
def anyMatchPos : List Char → Bool
  | [] => false
  | c :: cs => (matchAt (c :: cs)).isSome || anyMatchPos cs

/-- A string contains a substring matched by the pattern
`\[.*?\]|\(.*?see.*?\)` exactly when a match starts at some position. -/
def hasPatternMatch (s : String) : Bool :=
  anyMatchPos s.data

/-! ## Narrowing engine (`main`, `main.py` lines 98-191) -/

/-- A candidate disease: the page title and its extracted symptom list
(`{"name": title, "symptoms": syms}`, line 91). -/
structure Candidate where
  name : String
  symptoms : List String
deriving DecidableEq

/-- Python string comparison, `a <= b`: lexicographic on code points. -/
def strLe : List Char → List Char → Bool
  | [], _ => true
  | _ :: _, [] => false
  | a :: as, b :: bs => if a.toNat = b.toNat then strLe as bs else decide (a.toNat < b.toNat)

/-- Python `a <= b` on strings. -/
def pyLe (a b : String) : Bool :=
  strLe a.data b.data

/-- The Python string order as a relation, used by `sorted`. -/
def PyLeR (a b : String) : Prop :=
  pyLe a b = true

instance : DecidableRel PyLeR :=
  fun a b => inferInstanceAs (Decidable (pyLe a b = true))

/-- The checklist of new symptoms (lines 108-111):
`sorted({s for d in remaining for s in d["symptoms"] if s not in selected})`.
The set comprehension is modelled by deduplication followed by sorting in
the Python string order, which yields the same sorted duplicate-free
list. -/
def next_syms (remaining : List Candidate) (selected : List String) : List String :=
  (((remaining.flatMap Candidate.symptoms).filter
    (fun s => !(selected.contains s))).dedup).insertionSort PyLeR

/-- The filter of lines 170-174: keep a candidate when its symptom list is
empty or contains the submitted symptom. -/
def filter_pool (remaining : List Candidate) (sym : String) : List Candidate :=
  remaining.filter (fun d => d.symptoms.isEmpty || d.symptoms.contains sym)

/-- Python `str.isdigit()` restricted to ASCII: non-empty and all
characters are digits. -/
def isDigits (t : String) : Bool :=
  !t.data.isEmpty && t.data.all Char.isDigit

/-- Python `int(tok)` on a digit string. -/
def strToNat (t : String) : Nat :=
  t.data.foldl (fun n c => 10 * n + (c.toNat - 48)) 0

/-- Token interpretation (lines 142-151): a purely numeric token is a
1-based index into the checklist computed at the start of the round
(provided something is selected and the checklist is non-empty); an
in-range index resolves to the checklist entry, an out-of-range index is
rejected (`none`, line 148); any other token is taken literally. -/
def resolveTok (ns selected : List String) (tok : String) : Option String :=
  if isDigits tok && !selected.isEmpty && !ns.isEmpty then
    if 1 ≤ strToNat tok ∧ strToNat tok ≤ ns.length then
      some (ns.getD (strToNat tok - 1) "")
    else none
  else some tok

/-- The two non-fatal per-token warnings (lines 148 and 165). -/
inductive Warning where
  | invalidNumber (tok : String)
  | alreadyAdded (sym : String)
deriving DecidableEq

/-- Result of processing one batch of tokens: either the loop continues
into the next round with the new state, or the program exits via
`sys.exit(1)` (lines 157-159 and 176-178) with the selected symptoms at
that point. -/
inductive BatchResult where
  | toNextRound (warns : List Warning) (selected : List String) (remaining : List Candidate)
  | fatal (warns : List Warning) (selected : List String)
deriving DecidableEq

/-- Record a warning emitted before the rest of the batch was processed. -/
def addWarn (w : Warning) : BatchResult → BatchResult
  | .toNextRound ws sel rem => .toNextRound (w :: ws) sel rem
  | .fatal ws sel => .fatal (w :: ws) sel

/-- The token loop of lines 141-178.  `search` abstracts
`search_candidate_diseases` (the network collaborator, lines 66-94); `ns`
is the checklist computed at the start of the round and is never
recomputed inside the batch.  Each token is resolved (number or literal),
then either seeds the pool (lines 153-161), is reported as a duplicate
(lines 164-165), or filters the pool (lines 166-178). -/
def processTokens (search : String → List Candidate) (ns : List String) :
    List String → List String → List Candidate → BatchResult
  | [], selected, remaining => .toNextRound [] selected remaining
  | tok :: rest, selected, remaining =>
    match resolveTok ns selected tok with
    | none => addWarn (.invalidNumber tok) (processTokens search ns rest selected remaining)
    | some sym =>
      if selected.isEmpty then
        let rem := search sym
        if rem.isEmpty then .fatal [] [sym]
        else processTokens search ns rest [sym] rem
      else if selected.contains sym then
        addWarn (.alreadyAdded sym) (processTokens search ns rest selected remaining)
      else
        let sel := selected ++ [sym]
        let rem := filter_pool remaining sym
        if rem.isEmpty then .fatal [] sel
        else processTokens search ns rest sel rem

/-- The four user-visible terminal outcomes of a run: the diagnosis of
lines 116 and 184, the ambiguous list of lines 120-124, the manual-exit
shortlist of lines 185-188, and the fatal exhaustion of lines 157-159 and
176-178. -/
inductive Outcome where
  | diagnosed (name : String)
  | ambiguous (names : List String)
  | shortlist (names : List String)
  | exhausted (selected : List String)
deriving DecidableEq

/-- One round of the driving loop either terminates the run or continues
with a new state. -/
inductive RoundResult where
  | terminal (warns : List Warning) (o : Outcome)
  | nextRound (warns : List Warning) (selected : List String) (remaining : List Candidate)
deriving DecidableEq

/-- `remaining[0]["name"]` under the guards of lines 115 and 183; the
empty-list case is unreachable there. -/
def firstName : List Candidate → String
  | [] => ""
  | d :: _ => d.name

/-- Python whitespace for `str.strip()` and `str.split()` (ASCII part). -/
def isPySpace (c : Char) : Bool :=
  c == ' ' || c == '\t' || c == '\n' || c == '\r' || c == '\x0b' || c == '\x0c'

/-- `input(prompt).strip().lower()` (line 135). -/
def normInput (s : String) : String :=
  ⟨(((s.data.dropWhile isPySpace).reverse.dropWhile isPySpace).reverse).map Char.toLower⟩

/-- Helper for `str.split()`: break at whitespace runs, dropping empty
pieces; `acc` holds the characters of the current word, reversed. -/
def wordsAux (acc : List Char) : List Char → List String
  | [] => if acc.isEmpty then [] else [⟨acc.reverse⟩]
  | c :: cs =>
    if isPySpace c then
      if acc.isEmpty then wordsAux [] cs else (⟨acc.reverse⟩ : String) :: wordsAux [] cs
    else wordsAux (c :: acc) cs

/-- `user_in.replace(",", " ").split()` (line 140). -/
def tokenize (u : String) : List String :=
  wordsAux [] (u.data.map (fun c => if c = ',' then ' ' else c))

/-- One iteration of the `while True` loop of lines 106-180, plus the
post-loop lines 182-188 when the input is `done`: compute the checklist,
evaluate the two termination conditions in order, otherwise read the
input, stop on `done`, and otherwise process the token batch. -/
def roundStep (search : String → List Candidate) (selected : List String)
    (remaining : List Candidate) (inp : String) : RoundResult :=
  let ns := next_syms remaining selected
  if remaining.length = 1 ∧ ns.isEmpty ∧ !selected.isEmpty then
    .terminal [] (.diagnosed (firstName remaining))
  else if !remaining.isEmpty ∧ ns.isEmpty ∧ !selected.isEmpty then
    .terminal [] (.ambiguous (remaining.map Candidate.name))
  else
    let u := normInput inp
    if u = "done" then
      .terminal [] (if remaining.length = 1 then .diagnosed (firstName remaining)
        else .shortlist (remaining.map Candidate.name))
    else
      match processTokens search ns (tokenize u) selected remaining with
      | .toNextRound ws sel rem => .nextRound ws sel rem
      | .fatal ws sel => .terminal ws (.exhausted sel)

/-- The states of the narrowing engine reachable from the seed transition
(lines 153-161) by filter transitions (lines 163-178): the seed installs
the pool returned by the search collaborator for the first symptom, and
each subsequent fresh symptom filters the pool. -/
inductive Reachable (search : String → List Candidate) : List String → List Candidate → Prop
  | seed (sym : String) : Reachable search [sym] (search sym)
  | filter {selected : List String} {remaining : List Candidate} (sym : String)
      (h : Reachable search selected remaining) (hnew : sym ∉ selected) :
      Reachable search (selected ++ [sym]) (filter_pool remaining sym)

/-- A search collaborator stub used for concrete instances: one page whose
infobox lists only `cough`.  `search_candidate_diseases` always includes a
search hit even when the extracted symptoms omit the query (line 90-91),
so such pools do occur. -/
def searchStub : String → List Candidate :=
  fun _ => [⟨"Common cold", ["cough"]⟩]

/-- Concrete pool used in witness instances: two documented candidates and
one with an unknown (empty) symptom list. -/
def poolABC : List Candidate :=
  [⟨"A", ["fever", "cough"]⟩, ⟨"B", ["fever", "rash"]⟩, ⟨"C", []⟩]

/-- Concrete single-candidate pool whose only symptom is already selected. -/
def poolFlu : List Candidate :=
  [⟨"Flu", ["fever"]⟩]

/-- Concrete two-candidate pool that cannot be narrowed further once
`fever` is selected. -/
def poolTwo : List Candidate :=
  [⟨"Flu", ["fever"]⟩, ⟨"Cold", ["fever"]⟩]

/-! ## Helper lemmas -/

theorem strLe_cons (a b : Char) (as bs : List Char) :
    strLe (a :: as) (b :: bs)
      = if a.toNat = b.toNat then strLe as bs else decide (a.toNat < b.toNat) := rfl

instance : IsTotal String PyLeR := by
  constructor
  intro a b
  unfold PyLeR pyLe
  generalize a.data = x
  generalize b.data = y
  induction x generalizing y with
  | nil => left; rfl
  | cons c cs ih =>
    cases y with
    | nil => right; rfl
    | cons d ds =>
      by_cases h : c.toNat = d.toNat
      · rcases ih ds with h1 | h1
        · left; rw [strLe_cons, if_pos h]; exact h1
        · right; rw [strLe_cons, if_pos h.symm]; exact h1
      · have hne : d.toNat ≠ c.toNat := fun e => h e.symm
        rcases Nat.lt_or_ge c.toNat d.toNat with hlt | hge
        · left; rw [strLe_cons, if_neg h]; exact decide_eq_true hlt
        · have hdc : d.toNat < c.toNat := lt_of_le_of_ne hge hne
          right; rw [strLe_cons, if_neg hne]; exact decide_eq_true hdc

instance : IsTrans String PyLeR := by
  constructor
  suffices h : ∀ x y z : List Char, strLe x y = true → strLe y z = true → strLe x z = true by
    intro a b c h1 h2
    exact h a.data b.data c.data h1 h2
  intro x
  induction x with
  | nil => intro y z h1 h2; rfl
  | cons a as ih =>
    intro y z h1 h2
    cases y with
    | nil => simp [strLe] at h1
    | cons b bs =>
      cases z with
      | nil => simp [strLe] at h2
      | cons c cs =>
        rw [strLe_cons] at h1 h2 ⊢
        by_cases hab : a.toNat = b.toNat <;> by_cases hbc : b.toNat = c.toNat
        · rw [if_pos hab] at h1
          rw [if_pos hbc] at h2
          rw [if_pos (hab.trans hbc)]
          exact ih bs cs h1 h2
        · rw [if_pos hab] at h1
          rw [if_neg hbc, decide_eq_true_eq] at h2
          have hac : a.toNat < c.toNat := by omega
          rw [if_neg (Nat.ne_of_lt hac)]
          exact decide_eq_true hac
        · rw [if_neg hab, decide_eq_true_eq] at h1
          rw [if_pos hbc] at h2
          have hac : a.toNat < c.toNat := by omega
          rw [if_neg (Nat.ne_of_lt hac)]
          exact decide_eq_true hac
        · rw [if_neg hab, decide_eq_true_eq] at h1
          rw [if_neg hbc, decide_eq_true_eq] at h2
          have hac : a.toNat < c.toNat := by omega
          rw [if_neg (Nat.ne_of_lt hac)]
          exact decide_eq_true hac

theorem dropWhile_head_false {α : Type} {p : α → Bool} :
    ∀ (l : List α) {c : α} {rest : List α}, l.dropWhile p = c :: rest → p c = false := by
  intro l
  induction l with
  | nil => intro c rest h; simp [List.dropWhile] at h
  | cons a t ih =>
    intro c rest h
    rw [List.dropWhile_cons] at h
    cases hpa : p a with
    | true => rw [hpa, if_pos rfl] at h; exact ih h
    | false =>
      rw [hpa] at h
      simp at h
      obtain ⟨rfl, -⟩ := h
      exact hpa

theorem dropWhile_dropWhile {α : Type} (p : α → Bool) (l : List α) :
    (l.dropWhile p).dropWhile p = l.dropWhile p := by
  cases h : l.dropWhile p with
  | nil => rfl
  | cons c rest =>
    rw [List.dropWhile_cons, dropWhile_head_false l h]
    simp

theorem dropWhile_reverse_dropWhile {α : Type} (p : α → Bool) (X : List α)
    (hX : X.dropWhile p = X) :
    ((X.reverse.dropWhile p).reverse).dropWhile p = (X.reverse.dropWhile p).reverse := by
  cases hx : (X.reverse.dropWhile p).reverse with
  | nil => rfl
  | cons c cs =>
    have hX2 : X = c :: (cs ++ (X.reverse.takeWhile p).reverse) := by
      have h0 := List.takeWhile_append_dropWhile p X.reverse
      have h1 : X = (X.reverse.dropWhile p).reverse ++ (X.reverse.takeWhile p).reverse := by
        conv_lhs => rw [← List.reverse_reverse X, ← h0]
        rw [List.reverse_append]
      conv_lhs => rw [h1, hx]
      rw [List.cons_append]
    have hc : p c = false :=
      @dropWhile_head_false α p X c (cs ++ (X.reverse.takeWhile p).reverse)
        (by rw [hX]; exact hX2)
    rw [List.dropWhile_cons, hc]
    simp

theorem stripEnds_idem (l : List Char) : stripEnds (stripEnds l) = stripEnds l := by
  unfold stripEnds
  have hA : (l.dropWhile isStripChar).dropWhile isStripChar = l.dropWhile isStripChar :=
    dropWhile_dropWhile _ _
  rw [dropWhile_reverse_dropWhile isStripChar (l.dropWhile isStripChar) hA,
    List.reverse_reverse, dropWhile_dropWhile]

theorem stripEnds_sublist (l : List Char) : (stripEnds l).Sublist l := by
  unfold stripEnds
  have h1 : ((l.dropWhile isStripChar).reverse.dropWhile isStripChar).reverse.Sublist
      (l.dropWhile isStripChar) := by
    have := (@List.dropWhile_sublist Char ((l.dropWhile isStripChar).reverse) isStripChar).reverse
    rwa [List.reverse_reverse] at this
  exact h1.trans (List.dropWhile_sublist _)

theorem subPassGo_id (fuel : Nat) (l : List Char)
    (h : ∀ c ∈ l, c ≠ '[' ∧ c ≠ '(') : subPassGo fuel l = l := by
  induction fuel generalizing l with
  | zero => cases l <;> rfl
  | succ n ih =>
    cases l with
    | nil => rfl
    | cons c cs =>
      have hc := h c (List.mem_cons_self c cs)
      have hmatch : matchAt (c :: cs) = none := by
        show (if c = '[' then scanClose ']' cs else if c = '(' then scanSee cs else none) = none
        rw [if_neg hc.1, if_neg hc.2]
      simp only [subPassGo, hmatch]
      exact congrArg (c :: ·) (ih cs fun x hx => h x (List.mem_cons_of_mem c hx))

theorem char_toLower_idem (c : Char) : c.toLower.toLower = c.toLower := by
  by_cases h : 65 ≤ c.toNat ∧ c.toNat ≤ 90
  · have h32 : c.toLower = Char.ofNat (c.toNat + 32) := by
      unfold Char.toLower
      rw [if_pos h]
    rw [h32]
    obtain ⟨h1, h2⟩ := h
    obtain ⟨n, hn⟩ : ∃ n, c.toNat = n := ⟨_, rfl⟩
    rw [hn] at h1 h2 ⊢
    interval_cases n <;> decide
  · have hfix : c.toLower = c := by
      unfold Char.toLower
      rw [if_neg h]
    rw [hfix]
    exact hfix

theorem map_toLower_idem (l : List Char) :
    (l.map Char.toLower).map Char.toLower = l.map Char.toLower := by
  induction l with
  | nil => rfl
  | cons c t ih => simp only [List.map_cons, char_toLower_idem, ih]

theorem pyLower_pyLower (s : String) : pyLower (pyLower s) = pyLower s := by
  unfold pyLower
  exact congrArg String.mk (map_toLower_idem s.data)

theorem pyLower_length (s : String) : (pyLower s).length = s.length :=
  List.length_map s.data Char.toLower

theorem mem_dedupFirstGo {α : Type} [DecidableEq α] (x : α) :
    ∀ (l seen : List α), x ∈ dedupFirstGo seen l ↔ (x ∈ l ∧ x ∉ seen) := by
  intro l
  induction l with
  | nil => intro seen; simp [dedupFirstGo]
  | cons a t ih =>
    intro seen
    by_cases ha : a ∈ seen
    · rw [dedupFirstGo, if_pos ha, ih seen]
      constructor
      · rintro ⟨hx, hs⟩; exact ⟨List.mem_cons_of_mem a hx, hs⟩
      · rintro ⟨hor, hs⟩
        rcases List.mem_cons.mp hor with rfl | hx
        · exact absurd ha hs
        · exact ⟨hx, hs⟩
    · rw [dedupFirstGo, if_neg ha]
      by_cases hxa : x = a
      · subst hxa
        simp [ha]
      · rw [List.mem_cons, List.mem_cons, ih (a :: seen)]
        simp [hxa, List.mem_cons]

theorem nodup_dedupFirstGo {α : Type} [DecidableEq α] :
    ∀ (l seen : List α), (dedupFirstGo seen l).Nodup := by
  intro l
  induction l with
  | nil => intro seen; simp [dedupFirstGo]
  | cons a t ih =>
    intro seen
    by_cases ha : a ∈ seen
    · rw [dedupFirstGo, if_pos ha]; exact ih seen
    · rw [dedupFirstGo, if_neg ha]
      refine List.nodup_cons.mpr ⟨fun hmem => ?_, ih (a :: seen)⟩
      exact ((mem_dedupFirstGo a t (a :: seen)).mp hmem).2 (List.mem_cons_self a seen)

theorem reachable_selected_ne_nil {search : String → List Candidate}
    {selected : List String} {remaining : List Candidate}
    (h : Reachable search selected remaining) : selected ≠ [] := by
  induction h with
  | seed sym => simp
  | filter sym h hnew ih => simp

theorem mem_tier_bounds {g : String → Bool} {xs : List String} {s : String}
    (hs : s ∈ (xs.filter g).map pyLower) (hg : ∀ t, g t = true → lenOK t = true) :
    3 ≤ s.length ∧ s.length ≤ 60 ∧ pyLower s = s := by
  obtain ⟨t, ht, rfl⟩ := List.mem_map.mp hs
  have hlen : lenOK t = true := hg t (List.mem_filter.mp ht).2
  rw [lenOK, Bool.and_eq_true, decide_eq_true_eq, decide_eq_true_eq] at hlen
  rw [pyLower_length]
  exact ⟨hlen.1, hlen.2, pyLower_pyLower t⟩

theorem bool_not_true {b : Bool} (h : b = false) : ¬ b = true := by
  simp [h]

theorem isEmpty_false_of_ne_nil {α : Type} {l : List α} (h : l ≠ []) :
    l.isEmpty = false := by
  simp [h]

theorem contains_false_of_not_mem {α : Type} [BEq α] [LawfulBEq α] {l : List α} {x : α}
    (h : x ∉ l) : l.contains x = false := by
  simpa using h

/-! ## Claims -/

/-- C1, counterexample: it is not the case that every candidate in every
reachable pool has empty symptoms or contains every selected symptom.  The
seed transition installs the search result unfiltered (lines 90-91 keep a
page even when its infobox omits the query), so a candidate may lack the
seed symptom. -/
theorem C1_counterexample :
    ¬ (∀ (search : String → List Candidate) (selected : List String)
        (remaining : List Candidate), Reachable search selected remaining →
        ∀ c ∈ remaining, c.symptoms = [] ∨ ∀ s ∈ selected, s ∈ c.symptoms) := by
  intro h
  have h2 := h searchStub ["fever"] (searchStub "fever") (Reachable.seed "fever")
    ⟨"Common cold", ["cough"]⟩ (by decide)
  rcases h2 with h3 | h3
  · exact absurd h3 (by decide)
  · exact absurd (h3 "fever" (by decide)) (by decide)

/-- C1, amended: in every reachable state of the narrowing engine, every
candidate in the pool either has an empty symptoms set or contains every
member of the selected sequence after the first; the seed symptom is
exempt because the pool builder trusts the search hit (lines 90-91). -/
theorem C1_pool_invariant (search : String → List Candidate) (selected : List String)
    (remaining : List Candidate) (h : Reachable search selected remaining) :
    ∀ c ∈ remaining, c.symptoms = [] ∨ ∀ s ∈ selected.tail, s ∈ c.symptoms := by
  induction h with
  | seed sym =>
    intro c hc
    right
    intro s hs
    simp at hs
  | filter sym hr hnew ih =>
    intro c hc
    unfold filter_pool at hc
    obtain ⟨hcr, hpred⟩ := List.mem_filter.mp hc
    by_cases hemp : c.symptoms = []
    · exact Or.inl hemp
    · right
      have hall := (ih c hcr).resolve_left hemp
      have hsym : sym ∈ c.symptoms := by
        rw [Bool.or_eq_true] at hpred
        rcases hpred with hp | hp
        · exact absurd (List.isEmpty_iff.mp hp) hemp
        · simpa using hp
      have hne := reachable_selected_ne_nil hr
      obtain ⟨a, t, rfl⟩ := List.exists_cons_of_ne_nil hne
      intro s hs
      rw [List.cons_append, List.tail_cons] at hs
      rcases List.mem_append.mp hs with h1 | h1
      · exact hall s (by rw [List.tail_cons]; exact h1)
      · rw [List.mem_singleton] at h1
        rw [h1]
        exact hsym

/-- Witness for C1_pool_invariant at the seed state of the stub search,
instantiated at its one candidate. -/
theorem C1_witness :
    (⟨"Common cold", ["cough"]⟩ : Candidate).symptoms = [] ∨
      ∀ s ∈ (["fever"] : List String).tail,
        s ∈ (⟨"Common cold", ["cough"]⟩ : Candidate).symptoms :=
  C1_pool_invariant searchStub ["fever"] (searchStub "fever") (Reachable.seed "fever")
    ⟨"Common cold", ["cough"]⟩ (by decide)

/-- C2, counterexample: `clean_text` is not idempotent.  A single
substitution pass can create a fresh match: the bracket pair inside
`(s[]ee)` is removed, gluing the pieces into `(see)`, which the second
pass removes entirely. -/
theorem C2_counterexample :
    clean_text (clean_text "(s[]ee)") ≠ clean_text "(s[]ee)" := by decide

/-- C2, amended: `clean_text` is idempotent on every string containing no
opening bracket and no opening parenthesis (then the substitution pass is
the identity and boundary trimming is idempotent); full idempotence fails,
see the counterexample. -/
theorem C2_idempotent_no_groups (s : String)
    (h : ∀ c ∈ s.data, c ≠ '[' ∧ c ≠ '(') :
    clean_text (clean_text s) = clean_text s := by
  have hfix : ∀ (l : List Char), (∀ c ∈ l, c ≠ '[' ∧ c ≠ '(') →
      clean_text (⟨l⟩ : String) = ⟨stripEnds l⟩ := by
    intro l hl
    show (⟨stripEnds (subPassGo l.length l)⟩ : String) = ⟨stripEnds l⟩
    rw [subPassGo_id _ _ hl]
  have h1 : clean_text s = ⟨stripEnds s.data⟩ := hfix s.data h
  have h2 : ∀ c ∈ stripEnds s.data, c ≠ '[' ∧ c ≠ '(' :=
    fun c hc => h c ((stripEnds_sublist s.data).subset hc)
  rw [h1, hfix _ h2, stripEnds_idem]

/-- Witness for C2_idempotent_no_groups on a bracket-free string. -/
theorem C2_witness :
    (∀ c ∈ " Fever burn. ".data, c ≠ '[' ∧ c ≠ '(') ∧
      clean_text (clean_text " Fever burn. ") = clean_text " Fever burn. " :=
  ⟨by decide, C2_idempotent_no_groups " Fever burn. " (by decide)⟩

/-- C3, counterexample: an extracted item can still contain a substring
matched by the citation/parenthetical pattern, because `clean_text` makes
only one substitution pass: the list item `(s[]ee)` yields the extracted
symptom `(see)`, which the pattern matches. -/
theorem C3_counterexample :
    ¬ (∀ (cell : Option ValueCell),
        (∀ s ∈ extract_symptoms_from_infobox cell,
          3 ≤ s.length ∧ s.length ≤ 60 ∧ pyLower s = s ∧ hasPatternMatch s = false) ∧
        (extract_symptoms_from_infobox cell).Nodup) := by
  intro h
  have h2 := (h (some ⟨["(s[]ee)"], ""⟩)).1 "(see)" (by decide)
  exact absurd h2.2.2.2 (by decide)

/-- C3, amended: for every infobox fragment, every extracted item has
length in [3,60] and is lower-case, and the output has no duplicates; the
"no pattern substring" conjunct of the original claim is dropped, see the
counterexample. -/
theorem C3_extractor_bounds (cell : Option ValueCell) :
    (∀ s ∈ extract_symptoms_from_infobox cell,
      3 ≤ s.length ∧ s.length ≤ 60 ∧ pyLower s = s) ∧
    (extract_symptoms_from_infobox cell).Nodup := by
  cases cell with
  | none =>
    constructor
    · intro s hs
      simp [extract_symptoms_from_infobox] at hs
    · simp [extract_symptoms_from_infobox]
  | some cell =>
    constructor
    · intro s hs
      simp only [extract_symptoms_from_infobox, dedupFirst] at hs
      have hs2 := ((mem_dedupFirstGo s _ []).mp hs).1
      have hmem : s ∈ tier1 cell ∨ s ∈ tier2 cell := by
        by_cases hlt : (tier1 cell).length < 4
        · rw [if_pos hlt] at hs2
          exact List.mem_append.mp hs2
        · rw [if_neg hlt] at hs2
          exact Or.inl hs2
      rcases hmem with hm | hm
      · exact mem_tier_bounds hm (fun t ht => ht)
      · exact mem_tier_bounds hm (fun t ht => (Bool.and_eq_true _ _ ▸ ht).1)
    · simp only [extract_symptoms_from_infobox, dedupFirst]
      exact nodup_dedupFirstGo _ _

/-- Witness for C3_extractor_bounds on a concrete fragment exercising both
tiers, with the evaluated output. -/
theorem C3_witness :
    extract_symptoms_from_infobox (some ⟨["Fever [1]", "dry cough", "fever ."],
        "fever; dry cough, Some cases none; rash"⟩) = ["fever", "dry cough", "rash"] ∧
    ((∀ s ∈ extract_symptoms_from_infobox (some ⟨["Fever [1]", "dry cough", "fever ."],
        "fever; dry cough, Some cases none; rash"⟩),
      3 ≤ s.length ∧ s.length ≤ 60 ∧ pyLower s = s) ∧
    (extract_symptoms_from_infobox (some ⟨["Fever [1]", "dry cough", "fever ."],
        "fever; dry cough, Some cases none; rash"⟩)).Nodup) :=
  ⟨by decide, C3_extractor_bounds (some ⟨["Fever [1]", "dry cough", "fever ."],
    "fever; dry cough, Some cases none; rash"⟩)⟩

/-- C4: termination is evaluated before prompting, in priority order
(lines 113-124): a singleton pool with empty checklist and non-empty
selection is Diagnosed with the sole candidate; otherwise a non-empty
(hence larger) pool with empty checklist and non-empty selection is
Ambiguous with the full remaining list — in both cases regardless of the
pending input. -/
theorem C4_termination (search : String → List Candidate) (selected : List String)
    (remaining : List Candidate) (inp : String) :
    (remaining.length = 1 → next_syms remaining selected = [] → selected ≠ [] →
      roundStep search selected remaining inp
        = .terminal [] (.diagnosed (firstName remaining))) ∧
    (remaining ≠ [] → remaining.length ≠ 1 → next_syms remaining selected = [] →
      selected ≠ [] →
      roundStep search selected remaining inp
        = .terminal [] (.ambiguous (remaining.map Candidate.name))) := by
  constructor
  · intro h1 h2 h3
    simp only [roundStep, h2]
    rw [if_pos ⟨h1, rfl, by simp [h3]⟩]
  · intro h0 h1 h2 h3
    simp only [roundStep, h2]
    rw [if_neg (fun hcon => h1 hcon.1), if_pos ⟨by simp [h0], rfl, by simp [h3]⟩]

/-- Witness for C4_termination: a singleton pool diagnoses, a two-element
pool with no unseen symptoms lists both candidates. -/
theorem C4_witness :
    roundStep searchStub ["fever"] poolFlu "x" = .terminal [] (.diagnosed "Flu") ∧
    roundStep searchStub ["fever"] poolTwo "x" = .terminal [] (.ambiguous ["Flu", "Cold"]) :=
  ⟨(C4_termination searchStub ["fever"] poolFlu "x").1 (by decide) (by decide) (by decide),
   (C4_termination searchStub ["fever"] poolTwo "x").2
     (by decide) (by decide) (by decide) (by decide)⟩

/-- C5: every filter transition (lines 170-174) keeps a sub-collection of
the pool: membership is preserved into the old pool and the size never
increases, for every pool and every submitted symptom — hence along any
sequence of filter transitions the pool after each step is a subset of the
pool before it. -/
theorem C5_pool_monotone (remaining : List Candidate) (sym : String) :
    (∀ c ∈ filter_pool remaining sym, c ∈ remaining) ∧
    (filter_pool remaining sym).length ≤ remaining.length := by
  unfold filter_pool
  exact ⟨fun c hc => (List.mem_filter.mp hc).1, (List.filter_sublist _).length_le⟩

/-- Witness for C5_pool_monotone on a concrete pool. -/
theorem C5_witness :
    (∀ c ∈ filter_pool poolABC "cough", c ∈ poolABC) ∧
    (filter_pool poolABC "cough").length ≤ poolABC.length :=
  C5_pool_monotone poolABC "cough"

/-- C6: a candidate with an empty symptoms set survives every filter
transition, whatever symptom is submitted (lines 170-174: it is kept
because `not d["symptoms"]` holds). -/
theorem C6_conservative_retention (remaining : List Candidate) (sym : String)
    (c : Candidate) (hmem : c ∈ remaining) (hemp : c.symptoms = []) :
    c ∈ filter_pool remaining sym := by
  unfold filter_pool
  exact List.mem_filter.mpr ⟨hmem, by rw [hemp]; rfl⟩

/-- Witness for C6_conservative_retention: the unknown-symptoms candidate
survives a filter on a symptom it does not list. -/
theorem C6_witness :
    ((⟨"C", []⟩ : Candidate) ∈ poolABC ∧ (⟨"C", []⟩ : Candidate).symptoms = []) ∧
    (⟨"C", []⟩ : Candidate) ∈ filter_pool poolABC "purple spots" :=
  ⟨⟨by decide, rfl⟩, C6_conservative_retention poolABC "purple spots" ⟨"C", []⟩ (by decide) rfl⟩

/-- C7: the checklist (lines 108-111) is sorted in the Python string
order, duplicate-free, contains exactly the symptoms of pool members that
are not selected, and in particular no element of it is ever selected. -/
theorem C7_checklist (remaining : List Candidate) (selected : List String) :
    (next_syms remaining selected).Sorted PyLeR ∧
    (next_syms remaining selected).Nodup ∧
    (∀ s, s ∈ next_syms remaining selected ↔
      ((∃ c ∈ remaining, s ∈ c.symptoms) ∧ s ∉ selected)) ∧
    (∀ s ∈ next_syms remaining selected, s ∉ selected) := by
  have hmem : ∀ s, s ∈ next_syms remaining selected ↔
      ((∃ c ∈ remaining, s ∈ c.symptoms) ∧ s ∉ selected) := by
    intro s
    unfold next_syms
    rw [(List.perm_insertionSort PyLeR _).mem_iff, List.mem_dedup, List.mem_filter,
      List.mem_flatMap]
    simp
  refine ⟨List.sorted_insertionSort PyLeR _, ?_, hmem, fun s hs => ((hmem s).mp hs).2⟩
  unfold next_syms
  exact ((List.perm_insertionSort PyLeR _).nodup_iff).mpr (List.nodup_dedup _)

/-- Witness for C7_checklist, with the evaluated checklist. -/
theorem C7_witness :
    next_syms poolABC ["fever"] = ["cough", "rash"] ∧
    ((next_syms poolABC ["fever"]).Sorted PyLeR ∧
     (next_syms poolABC ["fever"]).Nodup ∧
     (∀ s, s ∈ next_syms poolABC ["fever"] ↔
       ((∃ c ∈ poolABC, s ∈ c.symptoms) ∧ s ∉ ["fever"])) ∧
     (∀ s ∈ next_syms poolABC ["fever"], s ∉ ["fever"])) :=
  ⟨by decide, C7_checklist poolABC ["fever"]⟩

/-- C8: an out-of-range numeric token and a re-submitted already-selected
symptom are local and non-fatal (lines 141-165): each produces its warning
and the batch continues on the remaining tokens with the selection and the
pool unchanged. -/
theorem C8_local_errors (search : String → List Candidate) (ns selected : List String)
    (remaining : List Candidate) (rest : List String) (tok : String) :
    (isDigits tok = true → selected ≠ [] → ns ≠ [] →
      ¬(1 ≤ strToNat tok ∧ strToNat tok ≤ ns.length) →
      processTokens search ns (tok :: rest) selected remaining
        = addWarn (.invalidNumber tok) (processTokens search ns rest selected remaining)) ∧
    (∀ sym, resolveTok ns selected tok = some sym → sym ∈ selected →
      processTokens search ns (tok :: rest) selected remaining
        = addWarn (.alreadyAdded sym) (processTokens search ns rest selected remaining)) := by
  constructor
  · intro hd hsel hns hrange
    have hres : resolveTok ns selected tok = none := by
      unfold resolveTok
      rw [if_pos (by simp [hd, hsel, hns]), if_neg hrange]
    simp only [processTokens, hres]
  · intro sym hres hmem
    have hsel : selected.isEmpty = false := by
      cases selected
      · simp at hmem
      · rfl
    have hcont : selected.contains sym = true := by simpa using hmem
    simp only [processTokens, hres]
    rw [if_neg (by simp [hsel]), if_pos hcont]

/-- Witness for C8_local_errors: the out-of-range token 9 and the
duplicate token fever each warn and leave the state unchanged. -/
theorem C8_witness :
    (processTokens searchStub ["cough", "rash"] ["9", "2"] ["fever"] poolABC
      = addWarn (.invalidNumber "9")
          (processTokens searchStub ["cough", "rash"] ["2"] ["fever"] poolABC)) ∧
    (processTokens searchStub ["cough", "rash"] ["fever", "2"] ["fever"] poolABC
      = addWarn (.alreadyAdded "fever")
          (processTokens searchStub ["cough", "rash"] ["2"] ["fever"] poolABC)) :=
  ⟨(C8_local_errors searchStub ["cough", "rash"] ["fever"] poolABC ["2"] "9").1
      (by decide) (by decide) (by decide) (by decide),
   (C8_local_errors searchStub ["cough", "rash"] ["fever"] poolABC ["2"] "fever").2
      "fever" (by decide) (by decide)⟩

/-- C9: within one batch, every numeric token is resolved against the
checklist computed before the batch was read (`next_syms` is passed into
the token loop and never recomputed there): two in-range numeric tokens
resolve to entries of the original checklist even though the first token
already filtered the pool and extended the selection. -/
theorem C9_batch_indexing (search : String → List Candidate) (ns selected : List String)
    (remaining : List Candidate) (rest : List String) (t1 t2 : String) (i j : Nat)
    (hd1 : isDigits t1 = true) (hi : strToNat t1 = i) (hi1 : 1 ≤ i) (hi2 : i ≤ ns.length)
    (hd2 : isDigits t2 = true) (hj : strToNat t2 = j) (hj1 : 1 ≤ j) (hj2 : j ≤ ns.length)
    (hsel : selected ≠ [])
    (hm1 : ns.getD (i - 1) "" ∉ selected)
    (hm2 : ns.getD (j - 1) "" ∉ selected ++ [ns.getD (i - 1) ""])
    (hne1 : filter_pool remaining (ns.getD (i - 1) "") ≠ [])
    (hne2 : filter_pool (filter_pool remaining (ns.getD (i - 1) ""))
      (ns.getD (j - 1) "") ≠ []) :
    processTokens search ns (t1 :: t2 :: rest) selected remaining
      = processTokens search ns rest
          ((selected ++ [ns.getD (i - 1) ""]) ++ [ns.getD (j - 1) ""])
          (filter_pool (filter_pool remaining (ns.getD (i - 1) ""))
            (ns.getD (j - 1) "")) := by
  have hns : ns ≠ [] := by
    intro e
    rw [e] at hi2
    simp at hi2
    omega
  have hres1 : resolveTok ns selected t1 = some (ns.getD (i - 1) "") := by
    unfold resolveTok
    rw [if_pos (by simp [hd1, hsel, hns]), if_pos (by rw [hi]; exact ⟨hi1, hi2⟩), hi]
  simp only [processTokens, hres1]
  rw [if_neg (bool_not_true (isEmpty_false_of_ne_nil hsel)),
    if_neg (bool_not_true (contains_false_of_not_mem hm1)),
    if_neg (bool_not_true (isEmpty_false_of_ne_nil hne1))]
  have hsel2 : selected ++ [ns.getD (i - 1) ""] ≠ [] := by simp
  have hres2 : resolveTok ns (selected ++ [ns.getD (i - 1) ""]) t2
      = some (ns.getD (j - 1) "") := by
    unfold resolveTok
    rw [if_pos (by simp [hd2, hsel2, hns]), if_pos (by rw [hj]; exact ⟨hj1, hj2⟩), hj]
  simp only [processTokens, hres2]
  rw [if_neg (bool_not_true (isEmpty_false_of_ne_nil hsel2)),
    if_neg (bool_not_true (contains_false_of_not_mem hm2)),
    if_neg (bool_not_true (isEmpty_false_of_ne_nil hne2))]

/-- Witness for C9_batch_indexing: tokens 1 and 3 both index the original
three-entry checklist although token 1 already filtered the pool. -/
theorem C9_witness :
    processTokens searchStub ["cough", "fever", "rash"] ["1", "3"] ["ache"] poolABC
      = processTokens searchStub ["cough", "fever", "rash"] []
          ((["ache"] ++ ["cough"]) ++ ["rash"])
          (filter_pool (filter_pool poolABC "cough") "rash") :=
  C9_batch_indexing searchStub ["cough", "fever", "rash"] ["ache"] poolABC [] "1" "3" 1 3
    (by decide) (by decide) (by decide) (by decide)
    (by decide) (by decide) (by decide) (by decide)
    (by decide) (by decide) (by decide) (by decide) (by decide)

/-- C10: the stop command is accepted even before any symptom is selected:
at the first prompt, `done` ends the run through the manual-exit path
(lines 136-137 and 182-188), and with the empty pool the result is the
shortlist branch with no names — neither Diagnosed nor the Exhausted
failure. -/
theorem C10_done_first_prompt (search : String → List Candidate) :
    roundStep search [] [] "done" = .terminal [] (.shortlist []) := rfl
